import Mathlib

/-!
Verification development for a two-strategy state-space search program
(an A* engine over an abstract problem interface, a depth-limited DFS
engine, an iterative-deepening driver, and a 4-sided-dominoes puzzle
domain).  The Python source consists of two files:
`m3project-InformedSearch.py` (A* engine + informed puzzle) and
`m3project_UninformedSearch.py` (depth-limited DFS, iterative deepening,
uninformed puzzle).  Each definition below is a shallow embedding of the
correspondingly named Python function; loops are embedded with explicit
fuel, Python sets as lists guarded by membership checks, and Python
exceptions as an `Except PyErr` result.
-/

set_option autoImplicit false

/-- The Python exception kinds that the embedded code can raise. -/
inductive PyErr : Type where
  | attributeError : PyErr
  | valueError : PyErr
  | typeError : PyErr
  | assertionError : PyErr
deriving DecidableEq, Repr

/-! ## Depth-limited DFS engine (`DepthLimitedDFS.search`)

The engine is abstract over the problem (`successor`, `goal_test` are
abstract methods of the class); both are total here, matching the
uninformed puzzle whose hooks raise no exceptions on well-formed states.
-/

/-- The abstract problem interface consumed by `DepthLimitedDFS.search`
and `IterativeDeepening.search`: `successor` returns `(action, state)`
pairs, `goal_test` is a pure predicate. -/
structure DLSProblem (σ α : Type) where
  successor : σ → List (α × σ)
  goal_test : σ → Bool

/-- The mutable local state of one `DepthLimitedDFS.search` call.
`stack` models `states_to_expand` with its top at the head (Python
appends to and pops from the right end of a list).  `pathSol` pairs the
parallel Python lists `path` and `solution`, most-recent-first (Python
keeps them oldest-first; they are always pushed and popped together).
`vis` models the set `visited_states` as a list: the engine only ever
adds a state after checking it is absent, so list membership coincides
with set membership.  `cnt` is `num_expanded_states`. -/
structure DLSConfig (σ α : Type) where
  stack : List (σ × Nat × Option α)
  cnt : Nat
  pathSol : List (σ × Option α)
  vis : List σ
deriving Repr

/-- The backtracking trim loop
`while len(solution) > depth: solution.pop(); visited_states.remove(path.pop())`:
entries deeper than `depth` are removed from the running path/solution
and their states removed from the visited set. -/
def dlsTrim {σ α : Type} [DecidableEq σ] (depth : Nat) :
    List (σ × Option α) → List σ → List (σ × Option α) × List σ
  | [], vis => ([], vis)
  | (s, a) :: rest, vis =>
    if ((s, a) :: rest).length ≤ depth then ((s, a) :: rest, vis)
    else dlsTrim depth rest (vis.erase s)

/-- One iteration of the `while states_to_expand:` loop of
`DepthLimitedDFS.search`.  `Sum.inl` is a `return` from the method,
`Sum.inr` continues the loop with the updated local state.  Note the
cycle/depth test reads the visited set before the trim, exactly as the
source does. -/
def dlsStep {σ α : Type} [DecidableEq σ] (P : DLSProblem σ α) (limit : Int)
    (cfg : DLSConfig σ α) :
    Sum (Option (List (Option α)) × Nat) (DLSConfig σ α) :=
  match cfg.stack with
  | [] => Sum.inl (none, cfg.cnt)
  | (s, d, a) :: rest =>
    if s ∈ cfg.vis ∨ (d : Int) > limit then
      Sum.inr { cfg with stack := rest }
    else
      let t := dlsTrim d cfg.pathSol cfg.vis
      let ps := (s, a) :: t.1
      let vis := s :: t.2
      if P.goal_test s then
        -- `return solution[1:], num_expanded_states`
        Sum.inl (some (((ps.reverse).map Prod.snd).drop 1), cfg.cnt + 1)
      else
        -- push the successors in order; the last one generated ends on top
        Sum.inr { stack := (P.successor s).foldl
                    (fun st p => (p.2, d + 1, some p.1) :: st) rest,
                  cnt := cfg.cnt + 1, pathSol := ps, vis := vis }

/-- The `while` loop of `DepthLimitedDFS.search`, with explicit fuel;
`none` means the fuel ran out before the loop returned. -/
def dlsLoop {σ α : Type} [DecidableEq σ] (P : DLSProblem σ α) (limit : Int) :
    Nat → DLSConfig σ α → Option (Option (List (Option α)) × Nat)
  | 0, _ => none
  | fuel + 1, cfg =>
    match dlsStep P limit cfg with
    | Sum.inl res => some res
    | Sum.inr cfg' => dlsLoop P limit fuel cfg'

/-- `DepthLimitedDFS.search(state, limit)`: the stack starts with the
root entry `(state, 0, None)` and all counters empty. -/
def dlsSearch {σ α : Type} [DecidableEq σ] (P : DLSProblem σ α) (state : σ)
    (limit : Int) (fuel : Nat) : Option (Option (List (Option α)) × Nat) :=
  dlsLoop P limit fuel ⟨[(state, 0, none)], 0, [], []⟩

/-! ## Iterative deepening driver (`IterativeDeepening.search`) -/

/-- The `while limit <= max_limit:` loop of `IterativeDeepening.search`
with its hard-coded `max_limit = 3` and expansion budget `50000`.
`last` is `last_expanded_states` (initially `-1`), `total` is
`total_expanded_states`, `counts` is the driver's `num_successor_states`
list (appended to and never read).  The outer `none` means some inner
depth-limited call ran out of fuel. -/
def idsLoop {σ α : Type} [DecidableEq σ] (P : DLSProblem σ α) (dlsFuel : Nat)
    (state : σ) :
    Nat → Nat → Int → Nat → List Nat →
    Option (Option (List (Option α)) × Nat)
  | 0, _, _, _, _ => none
  | fuel + 1, limit, last, total, counts =>
    if limit ≤ 3 then
      if total ≥ 50000 then some (none, total)
      else
        match dlsSearch P state (limit : Int) dlsFuel with
        | none => none
        | some (solution, num) =>
          if (num : Int) = last then some (none, total)
          else
            let total' := total + num
            let counts' := counts ++ [(P.successor state).length]
            match solution with
            | some sol => some (some sol, total')
            | none => idsLoop P dlsFuel state fuel (limit + 1) (num : Int) total' counts'
    else some (none, total)

/-- `IterativeDeepening.search(state)`: runs the depth-limited engine
with limits 0, 1, 2, … subject to the stagnation, max-limit and budget
cutoffs. -/
def idsSearch {σ α : Type} [DecidableEq σ] (P : DLSProblem σ α) (state : σ)
    (dlsFuel : Nat) : Option (Option (List (Option α)) × Nat) :=
  idsLoop P dlsFuel state 6 0 (-1) 0 []

/-! ## A* engine (`Astar.search`)

The engine is abstract over the problem.  Python is dynamically typed:
the engine iterates `for action, child, act_cost, heur_cost in
self.successor(state)`, which sequence-unpacks each element into four
names and raises `ValueError` when an element is not a 4-sequence; the
element type `τ` together with `unpackEntry` model this.  `successor`
and `heuristicfunction` may raise (the informed puzzle's do, see below),
so both return `Except`. -/
structure AstarProblem (σ α τ : Type) where
  successor : σ → Except PyErr (List τ)
  unpackEntry : τ → Except PyErr (α × σ × Int × Int)
  goal_test : σ → Bool
  heuristicfunction : σ → Except PyErr Int

/-- A frontier entry `(heur_cost, path_cost, state, parent, action)` as
pushed on the `PriorityQueue`.  The first component is the priority
(`math.inf` for the seed entry, hence `WithTop Int`). -/
structure AEntry (σ α : Type) where
  f : WithTop Int
  g : Int
  state : σ
  parent : Int
  action : Option α
deriving Repr

/-- The mutable local state of one `Astar.search` call.  `frontier`
models the `PriorityQueue` contents in insertion order; `vis` models
the set `visited_states` as a list (states are only added after a
membership check, so list membership coincides with set membership);
`expanded` is the list `expanded_states` of `(parent, action)` records;
`trace` is a specification-only ghost list recording, in order, each
state passed to `visited_states.add` (i.e. each expanded state) — it is
written exactly where `vis` is extended and read nowhere. -/
structure AConfig (σ α : Type) where
  frontier : List (AEntry σ α)
  cnt : Nat
  vis : List σ
  expanded : List (Int × Option α)
  trace : List σ
deriving Repr

/-- `PriorityQueue.get`: removes and returns a minimal entry.  The heap
order on entries is a parameter `le` (Python compares the entry tuples
lexicographically, raising `TypeError` on incomparable components; every
run studied below keeps at most one live frontier entry, so the
comparison is never exercised and any `le` yields the same run).  Among
equal entries the leftmost (first-inserted) is returned. -/
def getMin {ε : Type} (le : ε → ε → Bool) : List ε → Option (ε × List ε)
  | [] => none
  | e :: rest =>
    match getMin le rest with
    | none => some (e, rest)
    | some (m, rest') => if le e m then some (e, rest) else some (m, e :: rest')

/-- The path-reconstruction loop
`while parent != -1: solution.append(action); parent, action = expanded_states[parent]`,
with fuel (each stored parent index is strictly smaller than the index
of the record holding it, so `expanded.length + 1` steps always
suffice).  Produces the actions in the order Python appends them. -/
def reconstructAux {α : Type} (expanded : List (Int × Option α)) :
    Nat → Int → Option α → List (Option α)
  | 0, _, _ => []
  | fuel + 1, parent, action =>
    if parent = -1 then []
    else
      let r := expanded.getD parent.toNat (-1, none)
      action :: reconstructAux expanded fuel r.1 r.2

/-- `solution.reverse()` after the reconstruction loop: the action
sequence in execution order. -/
def reconstruct {α : Type} (expanded : List (Int × Option α)) (parent : Int)
    (action : Option α) : List (Option α) :=
  (reconstructAux expanded (expanded.length + 1) parent action).reverse

/-- The expansion loop
`for action, child, act_cost, heur_cost in self.successor(state): ...`.
The unpacked `act_cost`/`heur_cost` are discarded: the body reassigns
`heur_cost = self.heuristicfunction(child)`, `path_cost = 1`,
`act_cost = 1` and pushes
`(heur_cost+act_cost+path_cost, act_cost+path_cost, child, num_expanded_states-1, action)`,
i.e. priority `h+2` and accumulated cost `2` for every child. -/
def pushSuccessors {σ α τ : Type} (P : AstarProblem σ α τ) (cnt : Nat)
    (state : σ) (frontier : List (AEntry σ α)) :
    Except PyErr (List (AEntry σ α)) := do
  let succs ← P.successor state
  succs.foldlM (fun fr t => do
      let e ← P.unpackEntry t
      let h ← P.heuristicfunction e.2.1
      pure (fr ++ [⟨((h + 1 + 1 : Int) : WithTop Int), 1 + 1, e.2.1,
                    (cnt : Int) - 1, some e.1⟩]))
    frontier

/-- The `while not states_to_expand.empty():` loop of `Astar.search`,
with fuel.  The result pairs the method's return value (or the raised
exception) with the final local state; `none` means the fuel ran out. -/
def astarLoop {σ α τ : Type} [DecidableEq σ] (P : AstarProblem σ α τ)
    (le : AEntry σ α → AEntry σ α → Bool) :
    Nat → AConfig σ α →
    Option (Except PyErr (Option (List (Option α)) × WithTop Int × Nat) × AConfig σ α)
  | 0, _ => none
  | fuel + 1, cfg =>
    match getMin le cfg.frontier with
    | none => some (Except.ok (none, (⊤ : WithTop Int), cfg.cnt), cfg)
    | some (e, rest) =>
      if e.state ∈ cfg.vis then
        -- `if state in visited_states: continue`
        astarLoop P le fuel { cfg with frontier := rest }
      else
        let cfg' : AConfig σ α :=
          { frontier := rest, cnt := cfg.cnt + 1, vis := e.state :: cfg.vis,
            expanded := cfg.expanded ++ [(e.parent, e.action)],
            trace := cfg.trace ++ [e.state] }
        if P.goal_test e.state then
          some (Except.ok (some (reconstruct cfg'.expanded e.parent e.action),
                           (e.g : WithTop Int), cfg'.cnt), cfg')
        else
          match pushSuccessors P cfg'.cnt e.state cfg'.frontier with
          | Except.error err => some (Except.error err, cfg')
          | Except.ok fr' => astarLoop P le fuel { cfg' with frontier := fr' }

/-- The initial local state of `Astar.search`: the frontier seeded with
`(math.inf, 0, state, -1, None)`. -/
def astarInit {σ α : Type} (state : σ) : AConfig σ α :=
  ⟨[⟨(⊤ : WithTop Int), 0, state, -1, none⟩], 0, [], [], []⟩

/-- `Astar.search(state)`: the returned
`(solution_or_None, path_cost, num_expanded_states)` triple, or the
raised exception. -/
def astarSearch {σ α τ : Type} [DecidableEq σ] (P : AstarProblem σ α τ)
    (le : AEntry σ α → AEntry σ α → Bool) (fuel : Nat) (state : σ) :
    Option (Except PyErr (Option (List (Option α)) × WithTop Int × Nat)) :=
  (astarLoop P le fuel (astarInit state)).map Prod.fst

/-! ## The 4-sided dominoes puzzle (`Domino`, `FourDominoes`)

Both source files define the same `Domino` class and the same
`move`/`goal_test` methods; the `successor` methods differ (the informed
one additionally evaluates the heuristic on each copy, see
`successorI`).  States are `N×N` grids of dominoes, modelled as lists of
rows. -/

/-- A 4-sided domino tile (`Domino.__init__` stores four ints). -/
structure Domino where
  top : Int
  right : Int
  bottom : Int
  left : Int
deriving DecidableEq, Repr

instance : Inhabited Domino := ⟨⟨0, 0, 0, 0⟩⟩

/-- A puzzle state: the tuple-of-tuples grid of dominoes. -/
abbrev DomState : Type := List (List Domino)

/-- An action `((row1, col1), (row2, col2))`: the two grid positions to
swap. -/
abbrev DomAction : Type := (Nat × Nat) × (Nat × Nat)

/-- `state[r][c]` (the indices are validated by the callers' asserts;
out-of-range reads return the junk default and never occur in the runs
and theorems below). -/
def tileAt (s : DomState) (r c : Nat) : Domino :=
  (s.getD r []).getD c default

/-- Writing one grid cell of the temporary row-list copy in
`FourDominoes.move` (`List.set` is the identity out of range, matching
the asserts' guarantee that the indices are in range). -/
def setTile (s : DomState) (r c : Nat) (t : Domino) : DomState :=
  s.set r ((s.getD r []).set c t)

/-- `Domino.is_under`: `self.top == other.bottom`. -/
def isUnder (a b : Domino) : Bool := a.top = b.bottom

/-- `Domino.is_on_the_right_of`: `self.left == other.right`. -/
def isOnTheRightOf (a b : Domino) : Bool := a.left = b.right

/-- The shape condition checked by the asserts of
`FourDominoes.__init__` when an explicit state is supplied: `N` rows of
`N` tiles (the `isinstance(tile, Domino)` part is enforced by typing). -/
def wellFormedState (N : Nat) (s : DomState) : Bool :=
  s.length = N && s.all (fun row => row.length = N)

/-- The condition checked by the assert of `FourDominoes.move`: both
coordinates of both positions lie in `[0, N)`. -/
def validAction (N : Nat) (a : DomAction) : Bool :=
  a.1.1 < N && a.1.2 < N && a.2.1 < N && a.2.2 < N

/-- `FourDominoes.move(action)`: rebuilds the grid with the tiles at the
two positions exchanged
(`temp[r1][c1], temp[r2][c2] = temp[r2][c2], temp[r1][c1]`; the write to
`(r1,c1)` happens first, then the write to `(r2,c2)`). -/
def moveState (s : DomState) (a : DomAction) : DomState :=
  setTile (setTile s a.1.1 a.1.2 (tileAt s a.2.1 a.2.2))
    a.2.1 a.2.2 (tileAt s a.1.1 a.1.2)

/-- The action generated for the pair of flat indices `i < j` in the
`successor` double loop: `((i//N, i%N), (j//N, j%N))`. -/
def posAction (N i j : Nat) : DomAction := ((i / N, i % N), (j / N, j % N))

/-- `FourDominoes.successor(state)` of the uninformed file: one
successor per pair of flat indices `0 ≤ i < j < N*N`, each obtained by
swapping the two corresponding positions on a fresh copy. -/
def successorU (N : Nat) (s : DomState) : List (DomAction × DomState) :=
  (List.range (N * N)).flatMap fun i =>
    (List.range' (i + 1) (N * N - (i + 1))).map fun j =>
      (posAction N i j, moveState s (posAction N i j))

/-- `FourDominoes.goal_test(state)`: every tile below another matches it
(`is_under`) and every tile right of another matches it
(`is_on_the_right_of`). -/
def domGoalTest (N : Nat) (s : DomState) : Bool :=
  (List.range N).all fun i => (List.range N).all fun j =>
    (decide (i = 0) || isUnder (tileAt s i j) (tileAt s (i - 1) j)) &&
    (decide (j = 0) || isOnTheRightOf (tileAt s i j) (tileAt s i (j - 1)))

/-- `Astar.heuristicfunction(state)` of the informed file: counts the
positions whose tile differs from `self.goal_state[i][j]`.  A
`FourDominoes` instance only has a `goal_state` attribute when it was
built without an explicit state (the random branch of `__init__`), so
the attribute access raises `AttributeError` whenever `goalSt = none`
(the vestigial local assignment `goal_state = self.goal_test` on the
previous source line binds a local name and cannot prevent this). -/
def heuristicI (N : Nat) (goalSt : Option DomState) (s : DomState) :
    Except PyErr Int :=
  (List.range N).foldlM
    (fun acc i =>
      (List.range N).foldlM
        (fun acc2 j =>
          match goalSt with
          | none => Except.error PyErr.attributeError
          | some g =>
            Except.ok (if tileAt s i j ≠ tileAt g i j then acc2 + 1 else acc2))
        acc)
    (0 : Int)

/-- `FourDominoes.successor(state)` of the informed file: like
`successorU`, but each iteration additionally computes
`cost = copy.heuristicfunction(copy.state) + 1` on the fresh copy
`FourDominoes(self.N, state)`.  The copy is built from an explicit
state, so it has no `goal_state` attribute and the heuristic raises
`AttributeError` on the very first pair (for every `N ≥ 2` the pair
`(0,1)` exists); the copy's constructor asserts the state shape first. -/
def successorI (N : Nat) (s : DomState) :
    Except PyErr (List (DomAction × DomState)) :=
  ((List.range (N * N)).flatMap fun i =>
    (List.range' (i + 1) (N * N - (i + 1))).map fun j => (i, j)).foldlM
    (fun acc ij => do
      let action := posAction N ij.1 ij.2
      if wellFormedState N s then pure () else Except.error PyErr.assertionError
      let copyState := moveState s action
      let h ← heuristicI N none copyState
      let _cost := h + 1
      pure (acc ++ [(action, copyState)]))
    []

/-- The informed `FourDominoes` puzzle as seen by `Astar.search`, for an
instance whose `goal_state` attribute is `goalSt` (`none` when the
instance was constructed from an explicit state).  `unpackEntry` always
raises: `successor` returns `(action, state)` pairs, and unpacking a
2-tuple into the loop's four names `action, child, act_cost, heur_cost`
is a `ValueError`. -/
def fourDominoesAstar (N : Nat) (goalSt : Option DomState) :
    AstarProblem DomState DomAction (DomAction × DomState) where
  successor := successorI N
  unpackEntry := fun _ => Except.error PyErr.valueError
  goal_test := domGoalTest N
  heuristicfunction := heuristicI N goalSt

/-- Entry comparison for `DomState` frontiers: Python would compare the
entry tuples and raise `TypeError` on the `Domino` components; no run
below ever holds two frontier entries at once, so the comparison is
never invoked and its value is irrelevant. -/
def domEntryLe (_ _ : AEntry DomState DomAction) : Bool := true

/-! ## Concrete problem instances used by the theorems -/

/-- An abstract conforming A* problem (states and actions are naturals,
`successor` answers the 4-tuples the engine's loop expects): start `0`,
one action `7` leading to the goal `1`, zero heuristic. -/
def unitProblem : AstarProblem Nat Nat (Nat × Nat × Int × Int) where
  successor s := Except.ok (if s = 0 then [(7, 1, 0, 0)] else [])
  unpackEntry t := Except.ok t
  goal_test s := s = 1
  heuristicfunction _ := Except.ok 0

/-- Entry comparison for `Nat` states and actions, mirroring Python's
lexicographic tuple comparison on
`(heur_cost, path_cost, state, parent, action)` (`None` ordered first;
Python would raise comparing `None` with an int, but only the seed entry
carries `None` and its `math.inf` priority already differs from every
pushed priority). -/
def natEntryLe (a b : AEntry Nat Nat) : Bool :=
  if a.f ≠ b.f then decide (a.f ≤ b.f)
  else if a.g ≠ b.g then decide (a.g ≤ b.g)
  else if a.state ≠ b.state then decide (a.state ≤ b.state)
  else if a.parent ≠ b.parent then decide (a.parent ≤ b.parent)
  else
    match a.action, b.action with
    | none, _ => true
    | some _, none => false
    | some x, some y => decide (x ≤ y)

/-- The uninformed-search problem witnessing the driver's lost-solution
behaviour: from start `0` three branches `1`, `2`, `3` (pushed in this
order, so `3` is explored first), `3` has a dead-end child `4` and then
the goal `5`. -/
def stagnationProblem : DLSProblem Nat Nat where
  successor s :=
    if s = 0 then [(0, 1), (1, 2), (2, 3)]
    else if s = 3 then [(3, 5), (4, 4)]
    else []
  goal_test s := s = 5

/-- A trivial uninformed problem whose start is already the goal. -/
def goalAtStartProblem : DLSProblem Nat Nat where
  successor _ := []
  goal_test _ := true

/-- The 2×2 grid of four identical tiles: a goal configuration (every
adjacency matches). -/
def goalGrid2 : DomState :=
  [[⟨1, 1, 1, 1⟩, ⟨1, 1, 1, 1⟩], [⟨1, 1, 1, 1⟩, ⟨1, 1, 1, 1⟩]]

/-- A well-formed 2×2 grid that is not a goal (the tile at `(0,1)` has
`left = 2`, breaking the horizontal adjacency). -/
def badGrid2 : DomState :=
  [[⟨1, 1, 1, 1⟩, ⟨1, 1, 1, 2⟩], [⟨1, 1, 1, 1⟩, ⟨1, 1, 1, 1⟩]]

/-- A 2×2 grid of pairwise distinct tiles, used to exercise `moveState`. -/
def distinctGrid2 : DomState :=
  [[⟨1, 2, 3, 4⟩, ⟨5, 6, 7, 8⟩], [⟨9, 10, 11, 12⟩, ⟨13, 14, 15, 16⟩]]

/-! ## Claim theorems -/

/-- Claim C1 (refuted; evidence of the code bug).  `Astar.search` does
raise during normal search: on the very first expansion of a non-goal
state, `FourDominoes.successor` (informed file) evaluates
`copy.heuristicfunction(copy.state)` on a copy built from an explicit
state, which has no `goal_state` attribute, so `AttributeError` is
raised before any successor is produced (and even with that repaired,
the engine's `for action, child, act_cost, heur_cost in
self.successor(state)` would unpack the documented `(action, state)`
pairs into four names, a `ValueError`).  Here: a well-formed non-goal
2×2 start crashes the whole search. -/
theorem astar_informed_raises_on_first_expansion :
    astarSearch (fourDominoesAstar 2 none) domEntryLe 10 badGrid2 =
      some (Except.error PyErr.attributeError) ∧
    domGoalTest 2 badGrid2 = false ∧
    wellFormedState 2 badGrid2 = true ∧
    successorI 2 badGrid2 = Except.error PyErr.attributeError ∧
    (fourDominoesAstar 2 none).unpackEntry
        ((((0, 0), (0, 1)) : DomAction), badGrid2) =
      Except.error PyErr.valueError :=
  ⟨rfl, rfl, rfl, rfl, rfl⟩

/-- Claim C2 (refuted; evidence of the code bug).  The engine overwrites
`path_cost` and `act_cost` with the constant 1 before pushing, so every
pushed child carries accumulated cost `act_cost + path_cost = 2`
regardless of its parent's accumulated cost, and priority
`heuristic(child) + 2`.  On a conforming problem whose goal is one
action from the start, the root (cost 0) pushes its child with cost
`2 ≠ 0 + 1`, and the solved instance reports cost 2 for a 1-action
solution. -/
theorem astar_pushes_constant_cost :
    (astarInit 0 : AConfig Nat Nat).frontier =
      [⟨(⊤ : WithTop Int), 0, 0, -1, none⟩] ∧
    pushSuccessors unitProblem 1 0 [] =
      Except.ok [⟨((2 : Int) : WithTop Int), 2, 1, 0, some 7⟩] ∧
    astarSearch unitProblem natEntryLe 10 0 =
      some (Except.ok (some [some 7], ((2 : Int) : WithTop Int), 2)) ∧
    ([some 7] : List (Option Nat)).length = 1 ∧ (2 : Int) ≠ 0 + 1 :=
  ⟨rfl, rfl, rfl, rfl, by decide⟩

/-- Claim C3 (refuted; evidence of the code bug).  The driver checks
stagnation (`num_expanded_states == last_expanded_states`) before it
checks whether the call found a solution, so a solution found by a call
whose expansion count equals the previous call's count is discarded.  On
`stagnationProblem`, the limit-1 call expands 4 states and fails; the
limit-2 call finds the 2-action solution, also expanding 4 states
(exploring the dead end first suppresses, via the stale path-local
visited set, one expansion the limit-1 call performed); the driver
breaks on 4 = 4 and reports no solution. -/
theorem ids_discards_found_solution :
    dlsSearch stagnationProblem 0 1 50 = some (none, 4) ∧
    dlsSearch stagnationProblem 0 2 50 = some (some [some 2, some 3], 4) ∧
    idsSearch stagnationProblem 0 50 = some (none, 5) :=
  ⟨rfl, rfl, rfl⟩

/-- Claim C8: on a 2×2 instance whose start already satisfies
`goal_test`, `Astar.search` pops only the seed entry, expands it (count
1), the goal test succeeds, and reconstruction from the sentinel parent
`-1` yields the empty action list with the seed's accumulated cost 0. -/
theorem astar_goal_at_start_2x2 :
    astarSearch (fourDominoesAstar 2 none) domEntryLe 5 goalGrid2 =
      some (Except.ok (some [], ((0 : Int) : WithTop Int), 1)) ∧
    domGoalTest 2 goalGrid2 = true :=
  ⟨rfl, rfl⟩

/-- Claim C7 (counterexample).  Calling the depth-limited search with
the negative limit `-1` does not fail fast: it returns the ordinary
result `(None, 0)` — the root entry is silently discarded by the depth
test `depth > limit` and the stack empties. -/
theorem dls_negative_limit_no_failfast_cx :
    dlsSearch goalAtStartProblem 0 (-1) 2 = some (none, 0) :=
  rfl

/-- Claim C7 (amended).  A negative limit is not rejected at the API
boundary: for every problem and start state, `DepthLimitedDFS.search`
silently returns the ordinary result `(None, 0)` — the root entry is
discarded by the depth test and nothing is ever expanded. -/
theorem dls_negative_limit_ordinary_result {σ α : Type} [DecidableEq σ]
    (P : DLSProblem σ α) (s : σ) (limit : Int) (hneg : limit < 0)
    (fuel : Nat) (hfuel : 2 ≤ fuel) :
    dlsSearch P s limit fuel = some (none, 0) := by
  obtain ⟨k, rfl⟩ := Nat.exists_eq_add_of_le hfuel
  rw [Nat.add_comm]
  have hgt : (0 : Int) > limit := hneg
  simp [dlsSearch, dlsLoop, dlsStep, hgt]

/-- Witness for `dls_negative_limit_ordinary_result` at a concrete
problem, state, limit and fuel. -/
theorem dls_negative_limit_ordinary_result_w :
    (-1 : Int) < 0 ∧ 2 ≤ 2 ∧
    dlsSearch goalAtStartProblem 5 (-1) 2 = some (none, 0) :=
  ⟨by decide, by decide,
   dls_negative_limit_ordinary_result goalAtStartProblem 5 (-1) (by decide) 2 (by decide)⟩

/-- The trim loop leaves at most `depth` entries on the path. -/
theorem dlsTrim_length_le {σ α : Type} [DecidableEq σ] (depth : Nat) :
    ∀ (ps : List (σ × Option α)) (vis : List σ),
      (dlsTrim depth ps vis).1.length ≤ depth := by
  intro ps
  induction ps with
  | nil => intro vis; simp [dlsTrim]
  | cons hd t ih =>
    intro vis
    obtain ⟨s, a⟩ := hd
    rw [dlsTrim]
    split
    · next hle => simpa using hle
    · exact ih _

/-- If an iteration of the depth-limited loop returns a solution, the
solution has at most `limit` actions: the accepted goal entry's depth
`d` satisfies `d ≤ limit`, the trimmed path has at most `d` entries, and
the returned list drops the root's sentinel action. -/
theorem dlsStep_goal_return {σ α : Type} [DecidableEq σ] (P : DLSProblem σ α)
    (limit : Int) (cfg : DLSConfig σ α) (sol : List (Option α)) (cnt : Nat)
    (h : dlsStep P limit cfg = Sum.inl (some sol, cnt)) :
    (sol.length : Int) ≤ limit := by
  obtain ⟨stack, cnt0, ps0, vis0⟩ := cfg
  unfold dlsStep at h
  rcases stack with _ | ⟨⟨s, d, a⟩, rest⟩
  · simp at h
  · simp only at h
    split at h
    · simp at h
    · next hcond =>
      push_neg at hcond
      split at h
      · simp only [Sum.inl.injEq, Prod.mk.injEq, Option.some.injEq] at h
        obtain ⟨hsol, -⟩ := h
        have hlen : sol.length = (dlsTrim d ps0 vis0).1.length := by
          rw [← hsol]; simp
        have h1 : (dlsTrim d ps0 vis0).1.length ≤ d := dlsTrim_length_le d ps0 vis0
        have h2 : (d : Int) ≤ limit := hcond.2
        omega
      · simp at h

/-- Fuel-indexed version of the depth bound, over an arbitrary loop
state. -/
theorem dlsLoop_sol_length {σ α : Type} [DecidableEq σ] (P : DLSProblem σ α)
    (limit : Int) :
    ∀ (fuel : Nat) (cfg : DLSConfig σ α) (sol : List (Option α)) (cnt : Nat),
      dlsLoop P limit fuel cfg = some (some sol, cnt) →
      (sol.length : Int) ≤ limit := by
  intro fuel
  induction fuel with
  | zero => intro cfg sol cnt h; simp [dlsLoop] at h
  | succ n ih =>
    intro cfg sol cnt h
    rw [dlsLoop] at h
    rcases hstep : dlsStep P limit cfg with res | cfg'
    · rw [hstep] at h
      simp only [Option.some.injEq] at h
      rw [h] at hstep
      exact dlsStep_goal_return P limit cfg sol cnt hstep
    · rw [hstep] at h
      exact ih cfg' sol cnt h

/-- Claim C5: any solution returned by `DepthLimitedDFS.search(state,
limit)` contains at most `limit` actions, and a popped entry whose depth
exceeds the limit is discarded — the loop state is left unchanged except
for the removal of that entry, so its children are never generated. -/
theorem dls_depth_bound {σ α : Type} [DecidableEq σ] (P : DLSProblem σ α)
    (limit : Int) :
    (∀ (s : σ) (fuel : Nat) (sol : List (Option α)) (cnt : Nat),
        dlsSearch P s limit fuel = some (some sol, cnt) →
        (sol.length : Int) ≤ limit) ∧
    (∀ (cfg : DLSConfig σ α) (s : σ) (d : Nat) (a : Option α)
        (rest : List (σ × Nat × Option α)),
        cfg.stack = (s, d, a) :: rest → (d : Int) > limit →
        dlsStep P limit cfg = Sum.inr { cfg with stack := rest }) := by
  constructor
  · intro s fuel sol cnt h
    exact dlsLoop_sol_length P limit fuel _ sol cnt h
  · intro cfg s d a rest hstack hdeep
    obtain ⟨stack, cnt0, ps0, vis0⟩ := cfg
    simp only at hstack
    subst hstack
    unfold dlsStep
    simp only
    rw [if_pos (Or.inr hdeep)]

/-- Witness for `dls_depth_bound`: the goal-at-start problem solved with
limit 2 returns the empty action list (length `0 ≤ 2`), and a concrete
entry at depth 5 is discarded under limit 2. -/
theorem dls_depth_bound_w :
    ((([] : List (Option Nat)).length : Int) ≤ 2) ∧
    dlsStep goalAtStartProblem 2
        (⟨[(7, 5, none)], 0, [], []⟩ : DLSConfig Nat Nat) =
      Sum.inr ⟨[], 0, [], []⟩ :=
  ⟨(dls_depth_bound goalAtStartProblem 2).1 9 3 [] 1 rfl,
   (dls_depth_bound goalAtStartProblem 2).2 ⟨[(7, 5, none)], 0, [], []⟩ 7 5 none []
     rfl (by decide)⟩

/-- The path-local visited invariant of `DepthLimitedDFS.search`: the
visited set holds exactly the states on the running path, and the path
carries no duplicate states. -/
def DLSInv {σ α : Type} (cfg : DLSConfig σ α) : Prop :=
  cfg.vis = cfg.pathSol.map Prod.fst ∧ (cfg.pathSol.map Prod.fst).Nodup

/-- When the visited set is exactly the path states, the trim loop
keeps precisely the shallowest `depth` entries of the path (dropping
the deeper ones) and removes exactly the dropped states from the
visited set. -/
theorem dlsTrim_eq_drop {σ α : Type} [DecidableEq σ] (depth : Nat) :
    ∀ (ps : List (σ × Option α)) (vis : List σ), vis = ps.map Prod.fst →
      dlsTrim depth ps vis =
        (ps.drop (ps.length - depth),
         (ps.drop (ps.length - depth)).map Prod.fst) := by
  intro ps
  induction ps with
  | nil => intro vis hv; subst hv; simp [dlsTrim]
  | cons hd t ih =>
    intro vis hv
    obtain ⟨s, a⟩ := hd
    subst hv
    rw [dlsTrim]
    split
    · next hle =>
      have h0 : ((s, a) :: t).length - depth = 0 :=
        Nat.sub_eq_zero_of_le hle
      rw [h0]
      simp
    · next hgt =>
      have hd2 : depth ≤ t.length := by
        simp only [List.length_cons] at hgt
        omega
      rw [List.map_cons, List.erase_cons_head, ih (t.map Prod.fst) rfl]
      have h1 : ((s, a) :: t).length - depth = (t.length - depth) + 1 := by
        simp only [List.length_cons]
        omega
      rw [h1, List.drop_succ_cons]

/-- The state of the path/visited pair immediately after accepting an
entry `(s, d, a)` with `s` not yet visited: the surviving path is the
trimmed prefix plus the new entry, the visited set is exactly its
states, and these states are pairwise distinct. -/
theorem dls_accept_shape {σ α : Type} [DecidableEq σ] (d : Nat) (s : σ)
    (a : Option α) (ps0 : List (σ × Option α)) (vis0 : List σ)
    (hv : vis0 = ps0.map Prod.fst) (hnd : (ps0.map Prod.fst).Nodup)
    (hs : s ∉ vis0) :
    dlsTrim d ps0 vis0 =
      (ps0.drop (ps0.length - d),
       (ps0.drop (ps0.length - d)).map Prod.fst) ∧
    s :: (dlsTrim d ps0 vis0).2 =
      ((s, a) :: (dlsTrim d ps0 vis0).1).map Prod.fst ∧
    (((s, a) :: (dlsTrim d ps0 vis0).1).map Prod.fst).Nodup := by
  have htrim := dlsTrim_eq_drop d ps0 vis0 hv
  refine ⟨htrim, ?_, ?_⟩
  · rw [htrim]
    simp
  · rw [htrim]
    simp only [List.map_cons, List.nodup_cons]
    constructor
    · rw [List.map_drop]
      intro hmem
      exact hs (hv ▸ List.drop_subset _ _ hmem)
    · rw [List.map_drop]
      exact List.Nodup.sublist (List.drop_sublist _ _) hnd

/-- Claim C6: the path-local visited set is exactly the set of states
on the current path.  The invariant is preserved by every loop
iteration, and when a popped entry `(s, d, a)` is accepted, the trim
performed before accepting it removes precisely the entries of
abandoned deeper branches (the path becomes the shallowest `≤ d`
entries plus the new entry, and the visited set is exactly its states,
duplicate-free). -/
theorem dls_visited_exactly_path {σ α : Type} [DecidableEq σ]
    (P : DLSProblem σ α) (limit : Int) (cfg : DLSConfig σ α)
    (hinv : DLSInv cfg) :
    (∀ cfg', dlsStep P limit cfg = Sum.inr cfg' → DLSInv cfg') ∧
    (∀ (s : σ) (d : Nat) (a : Option α) (rest : List (σ × Nat × Option α)),
        cfg.stack = (s, d, a) :: rest → s ∉ cfg.vis → (d : Int) ≤ limit →
        dlsTrim d cfg.pathSol cfg.vis =
          (cfg.pathSol.drop (cfg.pathSol.length - d),
           (cfg.pathSol.drop (cfg.pathSol.length - d)).map Prod.fst) ∧
        s :: (dlsTrim d cfg.pathSol cfg.vis).2 =
          ((s, a) :: (dlsTrim d cfg.pathSol cfg.vis).1).map Prod.fst ∧
        (((s, a) :: (dlsTrim d cfg.pathSol cfg.vis).1).map Prod.fst).Nodup) := by
  obtain ⟨stack, cnt0, ps0, vis0⟩ := cfg
  obtain ⟨hv, hnd⟩ := hinv
  simp only at hv hnd
  constructor
  · intro cfg' hstep
    unfold dlsStep at hstep
    rcases stack with _ | ⟨⟨s, d, a⟩, rest⟩
    · simp at hstep
    · simp only at hstep
      split at hstep
      · injection hstep with h'
        rw [← h']
        exact ⟨hv, hnd⟩
      · next hcond =>
        push_neg at hcond
        obtain ⟨hs, -⟩ := hcond
        split at hstep
        · simp at hstep
        · injection hstep with h'
          rw [← h']
          obtain ⟨-, h2, h3⟩ := dls_accept_shape d s a ps0 vis0 hv hnd hs
          exact ⟨h2, h3⟩
  · intro s d a rest hstack hs hd
    simp only at hstack hs ⊢
    exact dls_accept_shape d s a ps0 vis0 hv hnd hs

/-- Witness for `dls_visited_exactly_path`: a concrete loop state whose
path is `[(0, None)]` with visited `{0}`; the accepted entry `(3, 1,
Some 9)` keeps the whole path and extends it, and the invariant holds
for the configuration produced by the step. -/
theorem dls_visited_exactly_path_w :
    DLSInv (⟨[(3, 1, some 9)], 7, [(0, none)], [0]⟩ : DLSConfig Nat Nat) ∧
    DLSInv (⟨[(4, 2, some 4), (5, 2, some 3)], 8,
             [(3, some 9), (0, none)], [3, 0]⟩ : DLSConfig Nat Nat) :=
  ⟨⟨rfl, by decide⟩,
   (dls_visited_exactly_path stagnationProblem 2
       ⟨[(3, 1, some 9)], 7, [(0, none)], [0]⟩ ⟨rfl, by decide⟩).1 _ rfl⟩

/-- The ghost-trace invariant of `Astar.search`: the expanded states
recorded so far are pairwise distinct, and all of them are in the
visited set. -/
def AInv {σ α : Type} (cfg : AConfig σ α) : Prop :=
  cfg.trace.Nodup ∧ ∀ s ∈ cfg.trace, s ∈ cfg.vis

/-- Every iteration of the `Astar.search` loop preserves `AInv`: a
state is only recorded as expanded after the `state in visited_states`
check fails, and it is then immediately added to the visited set. -/
theorem astarLoop_preserves_AInv {σ α τ : Type} [DecidableEq σ]
    (P : AstarProblem σ α τ) (le : AEntry σ α → AEntry σ α → Bool) :
    ∀ (fuel : Nat) (cfg : AConfig σ α)
      (res : Except PyErr (Option (List (Option α)) × WithTop Int × Nat))
      (cfg' : AConfig σ α),
      AInv cfg → astarLoop P le fuel cfg = some (res, cfg') → AInv cfg' := by
  intro fuel
  induction fuel with
  | zero => intro cfg res cfg' _ h; simp [astarLoop] at h
  | succ n ih =>
    intro cfg res cfg' hinv h
    rw [astarLoop] at h
    rcases hget : getMin le cfg.frontier with _ | ⟨e, rest⟩
    · rw [hget] at h
      simp only [Option.some.injEq, Prod.mk.injEq] at h
      rw [← h.2]
      exact hinv
    · rw [hget] at h
      simp only at h
      split at h
      · exact ih { cfg with frontier := rest } res cfg' ⟨hinv.1, hinv.2⟩ h
      · next hmem =>
        have hnotin : e.state ∉ cfg.trace := fun hc => hmem (hinv.2 _ hc)
        have htr : (cfg.trace ++ [e.state]).Nodup := by
          rw [List.nodup_append]
          refine ⟨hinv.1, List.nodup_singleton _, ?_⟩
          intro x hx hx'
          simp only [List.mem_singleton] at hx'
          subst hx'
          exact hnotin hx
        have hsub : ∀ s ∈ cfg.trace ++ [e.state], s ∈ e.state :: cfg.vis := by
          intro s hs
          rcases List.mem_append.mp hs with hs1 | hs2
          · exact List.mem_cons_of_mem _ (hinv.2 _ hs1)
          · simp only [List.mem_singleton] at hs2
            subst hs2
            exact List.mem_cons_self _ _
        split at h
        · simp only [Option.some.injEq, Prod.mk.injEq] at h
          rw [← h.2]
          exact ⟨htr, hsub⟩
        · rcases hpush : pushSuccessors P (cfg.cnt + 1) e.state rest with err | fr'
          · rw [hpush] at h
            simp only [Option.some.injEq, Prod.mk.injEq] at h
            rw [← h.2]
            exact ⟨htr, hsub⟩
          · rw [hpush] at h
            exact ih _ res cfg' ⟨htr, hsub⟩ h

/-- Claim C4: no state is expanded twice by `Astar.search`.  The trace
of expanded states of any completed run from the seeded initial
frontier is duplicate-free, and a popped frontier entry whose state is
already visited is discarded: the rest of the run is identical to the
run on the same loop state with that entry removed — it is not counted,
recorded, goal-tested or expanded. -/
theorem astar_no_duplicate_expansion {σ α τ : Type} [DecidableEq σ]
    (P : AstarProblem σ α τ) (le : AEntry σ α → AEntry σ α → Bool) :
    (∀ (state : σ) (fuel : Nat)
        (res : Except PyErr (Option (List (Option α)) × WithTop Int × Nat))
        (cfg : AConfig σ α),
        astarLoop P le fuel (astarInit state) = some (res, cfg) →
        cfg.trace.Nodup) ∧
    (∀ (cfg : AConfig σ α) (e : AEntry σ α) (rest : List (AEntry σ α))
        (fuel : Nat),
        getMin le cfg.frontier = some (e, rest) → e.state ∈ cfg.vis →
        astarLoop P le (fuel + 1) cfg =
          astarLoop P le fuel { cfg with frontier := rest }) := by
  constructor
  · intro state fuel res cfg h
    exact (astarLoop_preserves_AInv P le fuel _ res cfg
      ⟨List.nodup_nil, by simp [astarInit]⟩ h).1
  · intro cfg e rest fuel hget hmem
    rw [astarLoop, hget]
    simp only
    rw [if_pos hmem]

/-- Witness for `astar_no_duplicate_expansion`: the completed
`unitProblem` run expands the trace `[0, 1]`, duplicate-free; and from
a loop state whose only frontier entry carries the already-visited
state 0, the run continues exactly as if the entry were dropped. -/
theorem astar_no_duplicate_expansion_w :
    ([0, 1] : List Nat).Nodup ∧
    astarLoop unitProblem natEntryLe 4
        ⟨[⟨((2 : Int) : WithTop Int), 2, 0, 0, some 7⟩], 1, [0],
         [(-1, none)], [0]⟩ =
      astarLoop unitProblem natEntryLe 3 ⟨[], 1, [0], [(-1, none)], [0]⟩ :=
  ⟨(astar_no_duplicate_expansion unitProblem natEntryLe).1 0 10
     (Except.ok (some [some 7], ((2 : Int) : WithTop Int), 2))
     ⟨[], 2, [1, 0], [(-1, none), (0, some 7)], [0, 1]⟩ rfl,
   (astar_no_duplicate_expansion unitProblem natEntryLe).2
     ⟨[⟨((2 : Int) : WithTop Int), 2, 0, 0, some 7⟩], 1, [0], [(-1, none)], [0]⟩
     ⟨((2 : Int) : WithTop Int), 2, 0, 0, some 7⟩ [] 3 rfl (by decide)⟩

/-- Reading a list updated by `List.set` at an in-range index. -/
theorem getD_set_lt {β : Type} (l : List β) (i j : Nat) (x d : β)
    (hj : j < l.length) :
    (l.set i x).getD j d = if i = j then x else l.getD j d := by
  rw [List.getD_eq_getElem?_getD, List.getElem?_set]
  by_cases hij : i = j
  · subst hij
    rw [if_pos rfl, if_pos hj]
    simp
  · rw [if_neg hij, ← List.getD_eq_getElem?_getD, if_neg hij]

/-- `setTile` keeps the number of rows. -/
theorem setTile_length (s : DomState) (r' c' : Nat) (t : Domino) :
    (setTile s r' c' t).length = s.length :=
  List.length_set s r' _

/-- `setTile` keeps the length of every row. -/
theorem setTile_row_length (s : DomState) (r' c' : Nat) (t : Domino)
    (r : Nat) :
    ((setTile s r' c' t).getD r []).length = (s.getD r []).length := by
  unfold setTile
  by_cases hr : r < s.length
  · rw [getD_set_lt _ _ _ _ _ hr]
    by_cases h : r' = r
    · rw [if_pos h]
      subst h
      exact List.length_set _ _ _
    · rw [if_neg h]
  · have h1 : s.length ≤ r := not_lt.mp hr
    rw [List.getD_eq_default _ _ (by simpa [List.length_set] using h1),
        List.getD_eq_default _ _ h1]

/-- A well-formed state has `N` rows. -/
theorem wf_length (N : Nat) (s : DomState) (h : wellFormedState N s = true) :
    s.length = N := by
  unfold wellFormedState at h
  simp only [Bool.and_eq_true, decide_eq_true_eq] at h
  exact h.1

/-- Every in-range row of a well-formed state has `N` tiles. -/
theorem wf_row_length (N : Nat) (s : DomState) (h : wellFormedState N s = true)
    (r : Nat) (hr : r < N) : (s.getD r []).length = N := by
  unfold wellFormedState at h
  simp only [Bool.and_eq_true, decide_eq_true_eq, List.all_eq_true] at h
  obtain ⟨h1, h2⟩ := h
  have hrl : r < s.length := h1 ▸ hr
  have hmem : s.getD r [] ∈ s := by
    rw [List.getD_eq_getElem?_getD, List.getElem?_eq_getElem hrl]
    exact List.getElem_mem hrl
  simpa using h2 _ hmem

/-- Reading back one grid cell after a single `setTile`. -/
theorem tileAt_setTile (s : DomState) (r' c' : Nat) (t : Domino) (r c : Nat)
    (hr : r < s.length) (hc : c < (s.getD r []).length) :
    tileAt (setTile s r' c' t) r c =
      if r = r' ∧ c = c' then t else tileAt s r c := by
  unfold tileAt setTile
  rw [getD_set_lt _ _ _ _ _ hr]
  by_cases hrr : r' = r
  · subst hrr
    rw [if_pos rfl, getD_set_lt _ _ _ _ _ hc]
    by_cases hcc : c = c'
    · simp [hcc]
    · rw [if_neg (fun h => hcc h.symm), if_neg (fun h => hcc h.2)]
  · rw [if_neg hrr, if_neg (fun h => hrr h.1.symm)]

/-- The frame/swap characterisation of `FourDominoes.move`: the two
chosen positions exchange their previous tiles and every other position
is untouched. -/
theorem tileAt_moveState (N : Nat) (s : DomState) (r1 c1 r2 c2 : Nat)
    (hwf : wellFormedState N s = true)
    (_hr1 : r1 < N) (_hc1 : c1 < N) (_hr2 : r2 < N) (_hc2 : c2 < N)
    (r c : Nat) (hr : r < N) (hc : c < N) :
    tileAt (moveState s ((r1, c1), (r2, c2))) r c =
      if r = r2 ∧ c = c2 then tileAt s r1 c1
      else if r = r1 ∧ c = c1 then tileAt s r2 c2
      else tileAt s r c := by
  have hslen : s.length = N := wf_length N s hwf
  have hrow : (s.getD r []).length = N := wf_row_length N s hwf r hr
  have e1 : tileAt (setTile (setTile s r1 c1 (tileAt s r2 c2)) r2 c2
        (tileAt s r1 c1)) r c =
      if r = r2 ∧ c = c2 then tileAt s r1 c1
      else tileAt (setTile s r1 c1 (tileAt s r2 c2)) r c :=
    tileAt_setTile _ r2 c2 _ r c
      (by rw [setTile_length, hslen]; exact hr)
      (by rw [setTile_row_length, hrow]; exact hc)
  have e2 : tileAt (setTile s r1 c1 (tileAt s r2 c2)) r c =
      if r = r1 ∧ c = c1 then tileAt s r2 c2 else tileAt s r c :=
    tileAt_setTile _ r1 c1 _ r c (by rw [hslen]; exact hr)
      (by rw [hrow]; exact hc)
  show tileAt (setTile (setTile s r1 c1 (tileAt s r2 c2)) r2 c2
      (tileAt s r1 c1)) r c = _
  rw [e1, e2]

/-- Claim C10: for a valid action `((r1,c1),(r2,c2))` on a well-formed
state, `FourDominoes.move` produces a state in which the two positions
hold each other's previous tiles and every other position holds the
same tile as before (the previous state value is a fresh tuple rebuild;
in this pure embedding the input state is untouched by construction). -/
theorem move_swaps_tiles (N : Nat) (s : DomState) (r1 c1 r2 c2 : Nat)
    (hwf : wellFormedState N s = true)
    (hva : validAction N ((r1, c1), (r2, c2)) = true) :
    ∀ (r c : Nat), r < N → c < N →
      tileAt (moveState s ((r1, c1), (r2, c2))) r c =
        if r = r2 ∧ c = c2 then tileAt s r1 c1
        else if r = r1 ∧ c = c1 then tileAt s r2 c2
        else tileAt s r c := by
  intro r c hr hc
  unfold validAction at hva
  simp only [Bool.and_eq_true, decide_eq_true_eq] at hva
  obtain ⟨⟨⟨h1, h2⟩, h3⟩, h4⟩ := hva
  exact tileAt_moveState N s r1 c1 r2 c2 hwf h1 h2 h3 h4 r c hr hc

/-- Witness for `move_swaps_tiles`: swapping `(0,0)` and `(1,1)` on the
2×2 grid of pairwise distinct tiles moves the `(1,1)` tile to `(0,0)`,
the `(0,0)` tile to `(1,1)`, and leaves `(0,1)` unchanged. -/
theorem move_swaps_tiles_w :
    wellFormedState 2 distinctGrid2 = true ∧
    validAction 2 ((0, 0), (1, 1)) = true ∧
    tileAt (moveState distinctGrid2 ((0, 0), (1, 1))) 1 1 = tileAt distinctGrid2 0 0 ∧
    tileAt (moveState distinctGrid2 ((0, 0), (1, 1))) 0 0 = tileAt distinctGrid2 1 1 ∧
    tileAt (moveState distinctGrid2 ((0, 0), (1, 1))) 0 1 = tileAt distinctGrid2 0 1 := by
  refine ⟨by decide, by decide, ?_, ?_, ?_⟩
  · have h := move_swaps_tiles 2 distinctGrid2 0 0 1 1 (by decide) (by decide)
      1 1 (by decide) (by decide)
    simpa using h
  · have h := move_swaps_tiles 2 distinctGrid2 0 0 1 1 (by decide) (by decide)
      0 0 (by decide) (by decide)
    simpa using h
  · have h := move_swaps_tiles 2 distinctGrid2 0 0 1 1 (by decide) (by decide)
      0 1 (by decide) (by decide)
    simpa using h

/-- Claim C9: on any N×N state (2 ≤ N ≤ 4), the uninformed
`FourDominoes.successor` returns exactly `N²(N²−1)/2` successors — one
for each unordered pair `i < j` of flat grid positions, the resulting
state being the input with the two tiles swapped — and in particular
the list is never empty (no state of this domain is a dead end). -/
theorem fourDominoes_successor_complete (N : Nat) (s : DomState)
    (hN2 : 2 ≤ N) (hN4 : N ≤ 4) (hwf : wellFormedState N s = true) :
    (successorU N s).length = N * N * (N * N - 1) / 2 ∧
    successorU N s ≠ [] ∧
    (∀ e ∈ successorU N s, ∃ i j, i < j ∧ j < N * N ∧
        e = (posAction N i j, moveState s (posAction N i j))) ∧
    (∀ i j, i < j → j < N * N →
        (posAction N i j, moveState s (posAction N i j)) ∈ successorU N s) ∧
    (∀ i j, i < j → j < N * N → ∀ r c, r < N → c < N →
        tileAt (moveState s (posAction N i j)) r c =
          if r = j / N ∧ c = j % N then tileAt s (i / N) (i % N)
          else if r = i / N ∧ c = i % N then tileAt s (j / N) (j % N)
          else tileAt s r c) := by
  have hN0 : 0 < N := by omega
  refine ⟨?_, ?_, ?_, ?_, ?_⟩
  · interval_cases N <;>
      simp [successorU, List.length_flatMap, Function.comp_def,
        List.length_map, List.length_range'] <;> decide
  · apply List.ne_nil_of_length_pos
    interval_cases N <;>
      simp [successorU, List.length_flatMap, Function.comp_def,
        List.length_map, List.length_range'] <;> decide
  · intro e he
    unfold successorU at he
    rw [List.mem_flatMap] at he
    obtain ⟨i, hi, he2⟩ := he
    rw [List.mem_map] at he2
    obtain ⟨j, hj, rfl⟩ := he2
    rw [List.mem_range] at hi
    rw [List.mem_range'_1] at hj
    exact ⟨i, j, by omega, by omega, rfl⟩
  · intro i j hij hj
    unfold successorU
    rw [List.mem_flatMap]
    exact ⟨i, List.mem_range.mpr (by omega),
      List.mem_map.mpr ⟨j, List.mem_range'_1.mpr ⟨by omega, by omega⟩, rfl⟩⟩
  · intro i j hij hj r c hr hc
    have h1 : i / N < N := (Nat.div_lt_iff_lt_mul hN0).mpr (by omega)
    have h2 : i % N < N := Nat.mod_lt _ hN0
    have h3 : j / N < N := (Nat.div_lt_iff_lt_mul hN0).mpr (by omega)
    have h4 : j % N < N := Nat.mod_lt _ hN0
    simpa [posAction] using
      tileAt_moveState N s (i / N) (i % N) (j / N) (j % N) hwf
        h1 h2 h3 h4 r c hr hc

/-- Witness for `fourDominoes_successor_complete`: the 2×2 grid of
distinct tiles has exactly 6 successors, and the swap of flat positions
0 and 3 (the `(0,0)`/`(1,1)` swap) is among them. -/
theorem fourDominoes_successor_complete_w :
    (successorU 2 distinctGrid2).length = 6 ∧
    (posAction 2 0 3, moveState distinctGrid2 (posAction 2 0 3)) ∈
      successorU 2 distinctGrid2 :=
  ⟨(fourDominoes_successor_complete 2 distinctGrid2 (by decide) (by decide)
      (by decide)).1,
   (fourDominoes_successor_complete 2 distinctGrid2 (by decide) (by decide)
      (by decide)).2.2.2.1 0 3 (by decide) (by decide)⟩
